import Mathlib

/-!
Verification of the hash-chained ledger (`blockchain.py`).

Shallow embedding of the repository's single-node blockchain: Merkle-tree
transaction commitment, block hashing over header fields, proof-of-work
mining, chain admission and chain validation.

The Python source defines `Block` three times and `Blockchain` twice as the
tutorial evolves; per the specification's design notes these collapse into one
canonical type each.  The embedding below models the canonical program the
specification describes, taking each operation from the source line range that
defines its final form:

* `Transaction` and its string form (source lines 70-78);
* `hash_data`, `MerkleTree.build_tree` and the Merkle root (lines 111-135);
* the final `Block.__init__` / `Block.calculate_hash` (lines 136-149), which
  hash the five header fields index, previous_hash, merkle_root, timestamp,
  nonce — the transaction list itself is not an input of `calculate_hash`;
* `Block.mine_block` (lines 20-25), the only definition of mining;
* the final `Blockchain.__init__` / `create_genesis_block` / `add_block`
  (lines 152-166) and the only `is_chain_valid` / `get_latest_block`
  (lines 38-40, 48-59).

The SHA-256 digest is an external library call in the source
(`hashlib.sha256(...).hexdigest()`); the specification treats it as a leaf
component with a contract (deterministic string-to-string function).  The
embedding therefore takes the digest as an explicit function parameter
`digest : String → String`; every theorem quantifies over it unless it needs
a concrete instantiation, in which case the identity function (which is
injective, hence collision-free) is used.

Partiality is made explicit: `build_tree` never reaches a base case on the
empty list in the source (unbounded recursion), so it is embedded with fuel
(`build_tree_aux`) and returns `Option String`, with `none` for "no result".
The mining loop has no bound in the source, so it also takes fuel, `none`
meaning the loop has not terminated within the given bound.  Python's ambient
`int(time.time())` default timestamp is modelled as an explicit argument.
-/

namespace BlockchainSpec

/-- Model of `Transaction` (source lines 70-86): an immutable value record. -/
structure Transaction where
  sender : String
  receiver : String
  amount : Int
deriving DecidableEq

/-- Model of `str(tx)`, i.e. `Transaction.__repr__` (source lines 77-78): the canonical
string serialisation of a transaction. -/
def Transaction.str (t : Transaction) : String :=
  "Transaction(" ++ t.sender ++ " -> " ++ t.receiver ++ ": " ++ toString t.amount ++ ")"

/-- Model of `hash_data` (source lines 111-112): one digest application. -/
def hash_data (digest : String → String) (data : String) : String :=
  digest data

/-- The odd-layer step of `MerkleTree.build_tree` (source line 127):
`leaves.append(leaves[-1])`, duplicating the last element. -/
def duplicate_last (leaves : List String) : List String :=
  leaves ++ [leaves.getLastD ""]

/-- The pairwise-hashing loop of `MerkleTree.build_tree` (source lines
130-133): adjacent elements are paired left to right and each pair `(a, b)`
becomes `hash_data(a + b)`.  The source only runs this loop on even-length
layers (it duplicates the last element first), so the one-element arm is
unreachable there. -/
def pair_hash (digest : String → String) : List String → List String
  | [] => []
  | [_] => []
  | a :: b :: rest => hash_data digest (a ++ b) :: pair_hash digest rest

/-- Model of `MerkleTree.build_tree` (source lines 120-135) with explicit fuel.  The
source recursion has no base case for the empty layer (it would recurse
forever), hence the `none` result there; `none` on fuel exhaustion likewise
stands for a computation that has not finished.  `build_tree` below supplies
fuel that is always sufficient for non-empty input. -/
def build_tree_aux (digest : String → String) : Nat → List String → Option String
  | _, [] => none
  | _, [x] => some x
  | 0, _ :: _ :: _ => none
  | fuel + 1, a :: b :: rest =>
    build_tree_aux digest fuel
      (pair_hash digest
        (if (a :: b :: rest).length % 2 = 1 then duplicate_last (a :: b :: rest)
         else a :: b :: rest))

/-- Model of `MerkleTree.build_tree` on a layer of leaves. -/
def build_tree (digest : String → String) (leaves : List String) : Option String :=
  build_tree_aux digest leaves.length leaves

/-- Model of `MerkleTree.__init__` (source lines 116-118): the Merkle root of a
transaction batch is `build_tree` over the leaf digests of the transactions'
string forms. -/
def MerkleTree.root (digest : String → String) (transactions : List Transaction) :
    Option String :=
  build_tree digest (transactions.map fun tx => hash_data digest (Transaction.str tx))

/-- The canonical `Block` (source lines 136-144): header fields plus the
transaction batch.  `merkle_root` and `hash` are stored fields, computed once
at construction and mutated only as the source mutates them. -/
structure Block where
  index : Nat
  previous_hash : String
  transactions : List Transaction
  timestamp : Nat
  nonce : Nat
  merkle_root : String
  hash : String
deriving DecidableEq

/-- The f-string of `Block.calculate_hash` (source line 148): the plain
concatenation, with no separators, of the decimal index, the previous hash,
the Merkle root, the decimal timestamp and the decimal nonce. -/
def block_string (index : Nat) (previous_hash merkle_root : String)
    (timestamp nonce : Nat) : String :=
  toString index ++ previous_hash ++ merkle_root ++ toString timestamp ++ toString nonce

/-- Model of `Block.calculate_hash` (source lines 146-149): digest of `block_string`
over the five header fields.  The transaction list and the stored hash are not
inputs. -/
def Block.calculate_hash (digest : String → String) (b : Block) : String :=
  digest (block_string b.index b.previous_hash b.merkle_root b.timestamp b.nonce)

/-- Model of `Block.__init__` (source lines 137-144): compute the Merkle root of the
batch, then the block hash.  `none` when the Merkle computation has no result
(the empty batch). -/
def Block.new (digest : String → String) (index : Nat) (previous_hash : String)
    (transactions : List Transaction) (timestamp : Nat) (nonce : Nat) : Option Block :=
  match MerkleTree.root digest transactions with
  | none => none
  | some root =>
    let b : Block :=
      { index := index, previous_hash := previous_hash, transactions := transactions,
        timestamp := timestamp, nonce := nonce, merkle_root := root, hash := "" }
    some { b with hash := Block.calculate_hash digest b }

/-- The proof-of-work target (source line 22): `difficulty` many '0'
characters. -/
def target (difficulty : Nat) : String :=
  String.mk (List.replicate difficulty '0')

/-- The loop body of `Block.mine_block` (source lines 24-25): increment the
nonce, then recompute the hash (which therefore sees the new nonce). -/
def Block.mine_step (digest : String → String) (b : Block) : Block :=
  { b with nonce := b.nonce + 1,
           hash := Block.calculate_hash digest { b with nonce := b.nonce + 1 } }

/-- Model of `Block.mine_block` (source lines 20-25) with explicit fuel: while the hash
prefix misses the target, run the loop body.  `none` means the loop has not
terminated within `fuel` iterations. -/
def Block.mine_block (digest : String → String) : Nat → Nat → Block → Option Block
  | 0, difficulty, b =>
    if b.hash.take difficulty = target difficulty then some b else none
  | fuel + 1, difficulty, b =>
    if b.hash.take difficulty = target difficulty then some b
    else Block.mine_block digest fuel difficulty (Block.mine_step digest b)

/-- The canonical `Blockchain` (source lines 152-156): the ordered chain and
the difficulty parameter.  The filename and the load/save calls are the
external persistence adapter (truncated in the source) and are not part of the
core model. -/
structure Blockchain where
  chain : List Block
  difficulty : Nat
deriving DecidableEq

/-- Model of `Blockchain.create_genesis_block` (source lines 159-160):
`Block(0, "0", [], nonce=0)` with the ambient timestamp made explicit. -/
def create_genesis_block (digest : String → String) (now : Nat) : Option Block :=
  Block.new digest 0 "0" [] now 0

/-- Model of `Blockchain.__init__` (source lines 153-157): a one-element chain holding
the genesis block. -/
def Blockchain.init (digest : String → String) (difficulty : Nat) (now : Nat) :
    Option Blockchain :=
  match create_genesis_block digest now with
  | none => none
  | some g => some { chain := [g], difficulty := difficulty }

/-- Model of `Blockchain.get_latest_block` (source lines 38-40): `chain[-1]`, `none` on
an empty chain (where the source would raise). -/
def Blockchain.get_latest_block (bc : Blockchain) : Option Block :=
  bc.chain.getLast?

/-- Model of `Blockchain.add_block` (source lines 162-166): point the new block at the
current tip, mine it, append it.  The source never recomputes the hash when it
reassigns `previous_hash`; mining starts from the stale stored hash. -/
def Blockchain.add_block (digest : String → String) (fuel : Nat)
    (bc : Blockchain) (new_block : Block) : Option Blockchain :=
  match bc.get_latest_block with
  | none => none
  | some tip =>
    match Block.mine_block digest fuel bc.difficulty
        { new_block with previous_hash := tip.hash } with
    | none => none
    | some mined => some { bc with chain := bc.chain ++ [mined] }

/-- The outcome of `is_chain_valid` together with the diagnostic the source
prints: either the chain is valid, or the first offending loop index and the
reason ("hash mismatch" or "previous hash mismatch"). -/
inductive ValidationResult where
  | valid : ValidationResult
  | invalid : Nat → String → ValidationResult
deriving DecidableEq

/-- The loop body of `Blockchain.is_chain_valid` (source lines 50-58), walking
the chain from loop index `i` with `prev` the block at `i - 1`: the
hash-integrity check fires first, then the linkage check. -/
def validate_from (digest : String → String) : Block → Nat → List Block → ValidationResult
  | _, _, [] => ValidationResult.valid
  | prev, i, cur :: rest =>
    if cur.hash ≠ Block.calculate_hash digest cur then
      ValidationResult.invalid i "hash mismatch"
    else if cur.previous_hash ≠ prev.hash then
      ValidationResult.invalid i "previous hash mismatch"
    else
      validate_from digest cur (i + 1) rest

/-- Model of `Blockchain.is_chain_valid` (source lines 48-59), kept at the level of the
printed diagnostic. -/
def Blockchain.is_chain_valid_report (digest : String → String) (bc : Blockchain) :
    ValidationResult :=
  match bc.chain with
  | [] => ValidationResult.valid
  | g :: rest => validate_from digest g 1 rest

/-- Model of `Blockchain.is_chain_valid` (source lines 48-59): the boolean the source
returns. -/
def Blockchain.is_chain_valid (digest : String → String) (bc : Blockchain) : Bool :=
  match bc.is_chain_valid_report digest with
  | ValidationResult.valid => true
  | ValidationResult.invalid _ _ => false

/-- In-place update of the element at position `i`, modelling a Python
assignment such as `chain[i].transactions = ...`. -/
def list_modify (f : α → α) : Nat → List α → List α
  | _, [] => []
  | 0, x :: xs => f x :: xs
  | i + 1, x :: xs => x :: list_modify f i xs

/-- Tampering: reassign the transaction list of the block at position `i`
after admission, without re-mining. -/
def tamper_transactions (bc : Blockchain) (i : Nat) (txs : List Transaction) : Blockchain :=
  { bc with chain := list_modify (fun b => { b with transactions := txs }) i bc.chain }

/-- Tampering: reassign `previous_hash` of the block at position `i` without
updating block `i - 1`. -/
def tamper_previous_hash (bc : Blockchain) (i : Nat) (p : String) : Blockchain :=
  { bc with chain := list_modify (fun b => { b with previous_hash := p }) i bc.chain }

/-! ## Concrete fixtures

The identity function serves as a concrete, injective (hence collision-free)
digest for evaluating the model on explicit inputs; under it a block hash is
literally its `block_string`. -/

/-- A concrete injective digest for evaluation. -/
def idDigest : String → String := fun s => s

/-- A genesis-style block whose stored hash is consistent under `idDigest`. -/
def blockA0 : Block :=
  { index := 0, previous_hash := "0", transactions := [], timestamp := 0, nonce := 0,
    merkle_root := "r", hash := block_string 0 "0" "r" 0 0 }

/-- A second block linked to `blockA0`, hash-consistent under `idDigest`. -/
def blockA1 : Block :=
  { index := 1, previous_hash := blockA0.hash, transactions := [], timestamp := 0,
    nonce := 0, merkle_root := "m", hash := block_string 1 blockA0.hash "m" 0 0 }

/-- A two-block chain that `is_chain_valid` accepts under `idDigest`. -/
def chainA : Blockchain := { chain := [blockA0, blockA1], difficulty := 2 }

/-- A one-block chain at difficulty 0: every hash meets the empty target, so
admission never runs a mining iteration. -/
def chainB : Blockchain := { chain := [blockA0], difficulty := 0 }

/-- A candidate block handed to `add_block` with a caller-chosen index 7 and a
stale stored hash. -/
def blockX : Block :=
  { index := 7, previous_hash := "junk", transactions := [], timestamp := 0, nonce := 0,
    merkle_root := "q", hash := "Z" }

/-- The chain `add_block` produces from `chainB` and `blockX`: the appended
block keeps its stale hash "Z" because difficulty 0 skips mining. -/
def chainBbad : Blockchain :=
  { chain := [blockA0, Block.mk 7 blockA0.hash [] 0 0 "q" "Z"], difficulty := 0 }

/-- A one-block chain at difficulty 1. -/
def chainB1 : Blockchain := { chain := [blockA0], difficulty := 1 }

/-- A candidate block whose stale hash misses the difficulty-1 target, so
admission runs the mining loop. -/
def blockY : Block :=
  { index := 0, previous_hash := "p", transactions := [], timestamp := 0, nonce := 0,
    merkle_root := "w", hash := "Z" }

/-- The chain `add_block` produces from `chainB1` and `blockY`: one mining
iteration under `idDigest` yields nonce 1 and a recomputed hash. -/
def chainB1good : Blockchain :=
  { chain := [blockA0, Block.mk 0 blockA0.hash [] 0 1 "w" "000r00w01"], difficulty := 1 }

/-! ## Helper lemmas -/

/-- Lemma: `validate_from` reads its `prev` argument only through `prev.hash`. -/
theorem validate_from_congr_prev (digest : String → String) (p q : Block)
    (h : p.hash = q.hash) (i : Nat) (l : List Block) :
    validate_from digest p i l = validate_from digest q i l := by
  cases l with
  | nil => rfl
  | cons c rest => simp only [validate_from, h]

/-- Reassigning a block's transaction list is invisible to `validate_from`:
the walk reads only stored header fields and stored hashes. -/
theorem validate_from_tamper_transactions (digest : String → String)
    (txs : List Transaction) :
    ∀ (l : List Block) (k i : Nat) (prev : Block),
      validate_from digest prev i
          (list_modify (fun b => { b with transactions := txs }) k l) =
        validate_from digest prev i l := by
  intro l
  induction l with
  | nil => intro k i prev; cases k <;> rfl
  | cons c rest ih =>
    intro k i prev
    cases k with
    | zero =>
      show validate_from digest prev i ({ c with transactions := txs } :: rest) = _
      simp only [validate_from]
      have hch : Block.calculate_hash digest { c with transactions := txs } =
          Block.calculate_hash digest c := rfl
      rw [hch, validate_from_congr_prev digest { c with transactions := txs } c rfl (i + 1) rest]
    | succ k =>
      show validate_from digest prev i (c :: list_modify _ k rest) = _
      simp only [validate_from]
      rw [ih k (i + 1) c]

/-- One pairing pass halves the layer length (rounding down). -/
theorem pair_hash_length (digest : String → String) :
    ∀ l : List String, (pair_hash digest l).length = l.length / 2
  | [] => by simp [pair_hash]
  | [_] => by simp [pair_hash]
  | _ :: _ :: rest => by
    simp only [pair_hash, List.length_cons, pair_hash_length digest rest]
    omega

/-- Duplicating the last element grows the layer by one. -/
theorem duplicate_last_length (l : List String) :
    (duplicate_last l).length = l.length + 1 := by
  simp [duplicate_last]

/-- The layer produced by one `build_tree` step from a layer of two or more
elements fits under any bound that the original layer fits under, less one. -/
theorem pair_hash_step_length (digest : String → String) (a b : String) (t : List String)
    (m : Nat) (hm : t.length + 2 ≤ m + 1) :
    (pair_hash digest
        (if (a :: b :: t).length % 2 = 1 then duplicate_last (a :: b :: t)
         else a :: b :: t)).length ≤ m := by
  by_cases hodd : (a :: b :: t).length % 2 = 1
  · rw [if_pos hodd, pair_hash_length, duplicate_last_length]
    simp only [List.length_cons] at hodd ⊢
    omega
  · rw [if_neg hodd, pair_hash_length]
    simp only [List.length_cons] at hodd ⊢
    omega

/-- With fuel at least the layer length, `build_tree_aux` yields a result on
every non-empty layer: each step strictly shrinks a layer of length greater
than one, so the recursion bottoms out at a single element. -/
theorem build_tree_aux_some (digest : String → String) :
    ∀ (fuel : Nat) (l : List String), l.length ≤ fuel → l ≠ [] →
      (build_tree_aux digest fuel l).isSome = true := by
  intro fuel
  induction fuel with
  | zero =>
    intro l hlen hne
    cases l with
    | nil => exact absurd rfl hne
    | cons a t => simp at hlen
  | succ fuel ih =>
    intro l hlen hne
    obtain _ | ⟨a, _ | ⟨b, t⟩⟩ := l
    · exact absurd rfl hne
    · rfl
    · simp only [build_tree_aux]
      apply ih
      · exact pair_hash_step_length digest a b t fuel (by simpa using hlen)
      · apply List.ne_nil_of_length_pos
        by_cases hodd : (a :: b :: t).length % 2 = 1
        · rw [if_pos hodd, pair_hash_length, duplicate_last_length]
          simp only [List.length_cons]
          omega
        · rw [if_neg hodd, pair_hash_length]
          simp only [List.length_cons]
          omega

/-- Lemma: `build_tree_aux` does not depend on the exact fuel, as long as the fuel
covers the layer length. -/
theorem build_tree_aux_fuel_irrel (digest : String → String) :
    ∀ (f₁ : Nat) (l : List String) (f₂ : Nat), l.length ≤ f₁ → l.length ≤ f₂ →
      build_tree_aux digest f₁ l = build_tree_aux digest f₂ l := by
  intro f₁
  induction f₁ with
  | zero =>
    intro l f₂ h1 h2
    have hl : l = [] := List.eq_nil_of_length_eq_zero (Nat.le_zero.mp h1)
    subst hl
    cases f₂ <;> rfl
  | succ f₁ ih =>
    intro l f₂ h1 h2
    obtain _ | ⟨a, _ | ⟨b, t⟩⟩ := l
    · cases f₂ <;> rfl
    · cases f₂ <;> rfl
    · obtain ⟨f₂', rfl⟩ : ∃ k, f₂ = k + 1 := by
        refine ⟨f₂ - 1, ?_⟩
        simp only [List.length_cons] at h2
        omega
      simp only [build_tree_aux]
      exact ih _ _ (pair_hash_step_length digest a b t f₁ (by simpa using h1))
        (pair_hash_step_length digest a b t f₂' (by simpa using h2))

/-- One step of the Merkle reduction, at the level of `build_tree`: on a layer
of two or more elements, duplicate the last element when the length is odd,
hash adjacent pairs, and recurse. -/
theorem build_tree_step (digest : String → String) (l : List String) (h : 2 ≤ l.length) :
    build_tree digest l =
      build_tree digest
        (pair_hash digest (if l.length % 2 = 1 then duplicate_last l else l)) := by
  obtain _ | ⟨a, _ | ⟨b, t⟩⟩ := l
  · simp at h
  · simp at h
  · show build_tree_aux digest (t.length + 1 + 1) (a :: b :: t) = _
    simp only [build_tree_aux]
    unfold build_tree
    exact build_tree_aux_fuel_irrel digest (t.length + 1)
      (pair_hash digest
        (if (a :: b :: t).length % 2 = 1 then duplicate_last (a :: b :: t) else a :: b :: t))
      _ (pair_hash_step_length digest a b t (t.length + 1) (by simp)) le_rfl

/-- One mining step bumps the nonce by one, changes nothing else except the
hash, and leaves the block sealed: its stored hash is the recomputation over
its own header fields. -/
theorem mine_step_sealed (digest : String → String) (b : Block) :
    (Block.mine_step digest b).hash =
      Block.calculate_hash digest (Block.mine_step digest b) := rfl

/-- What a successful mining run guarantees: the hash prefix meets the target,
every field other than nonce and hash is untouched, and the nonce rose by the
number of iterations — zero iterations return the block unchanged, and any
positive number leaves the stored hash equal to its recomputation. -/
theorem mine_block_spec (digest : String → String) :
    ∀ (fuel difficulty : Nat) (b b' : Block),
      Block.mine_block digest fuel difficulty b = some b' →
      b'.hash.take difficulty = target difficulty
      ∧ b'.index = b.index
      ∧ b'.previous_hash = b.previous_hash
      ∧ b'.transactions = b.transactions
      ∧ b'.timestamp = b.timestamp
      ∧ b'.merkle_root = b.merkle_root
      ∧ ∃ k : Nat, b'.nonce = b.nonce + k
          ∧ (k = 0 → b' = b)
          ∧ (0 < k → b'.hash = Block.calculate_hash digest b') := by
  intro fuel
  induction fuel with
  | zero =>
    intro difficulty b b' h
    simp only [Block.mine_block] at h
    split at h
    case isTrue hcond =>
      injection h with h
      subst h
      exact ⟨hcond, rfl, rfl, rfl, rfl, rfl, 0, by simp, fun _ => rfl, fun hk => absurd hk (by simp)⟩
    case isFalse hcond => cases h
  | succ fuel ih =>
    intro difficulty b b' h
    simp only [Block.mine_block] at h
    split at h
    case isTrue hcond =>
      injection h with h
      subst h
      exact ⟨hcond, rfl, rfl, rfl, rfl, rfl, 0, by simp, fun _ => rfl, fun hk => absurd hk (by simp)⟩
    case isFalse hcond =>
      obtain ⟨ht, hi, hp, htx, hts, hm, k, hk, hk0, hkpos⟩ := ih difficulty _ b' h
      refine ⟨ht, hi, hp, htx, hts, hm, k + 1, ?_, ?_, ?_⟩
      · have hstep : (Block.mine_step digest b).nonce = b.nonce + 1 := rfl
        rw [hstep] at hk
        omega
      · intro hzero
        exact absurd hzero (Nat.succ_ne_zero k)
      · intro _
        rcases Nat.eq_zero_or_pos k with rfl | hpos
        · rw [hk0 rfl]
          exact mine_step_sealed digest b
        · exact hkpos hpos

/-- A block whose stored hash matches its recomputation keeps that property
through any successful mining run. -/
theorem mine_block_sealed (digest : String → String) (fuel difficulty : Nat)
    (b b' : Block) (hb : b.hash = Block.calculate_hash digest b)
    (h : Block.mine_block digest fuel difficulty b = some b') :
    b'.hash = Block.calculate_hash digest b' := by
  obtain ⟨-, -, -, -, -, -, k, -, hk0, hkpos⟩ := mine_block_spec digest fuel difficulty b b' h
  rcases Nat.eq_zero_or_pos k with rfl | hpos
  · rw [hk0 rfl]
    exact hb
  · exact hkpos hpos

/-- Unfolding one step of a passing validation walk: the head block's stored
hash matches its recomputation, it links to `prev`, and the rest passes. -/
theorem validate_from_cons_valid (digest : String → String) (prev : Block) (i : Nat)
    (cur : Block) (rest : List Block) :
    validate_from digest prev i (cur :: rest) = ValidationResult.valid ↔
      (cur.hash = Block.calculate_hash digest cur
       ∧ cur.previous_hash = prev.hash
       ∧ validate_from digest cur (i + 1) rest = ValidationResult.valid) := by
  simp only [validate_from]
  constructor
  · intro h
    by_cases h1 : cur.hash ≠ Block.calculate_hash digest cur
    · rw [if_pos h1] at h
      exact (ValidationResult.noConfusion h)
    · rw [if_neg h1] at h
      by_cases h2 : cur.previous_hash ≠ prev.hash
      · rw [if_pos h2] at h
        exact (ValidationResult.noConfusion h)
      · rw [if_neg h2] at h
        exact ⟨not_not.mp h1, not_not.mp h2, h⟩
  · rintro ⟨h1, h2, h3⟩
    rw [if_neg (fun hne => hne h1), if_neg (fun hne => hne h2)]
    exact h3

/-- The concatenation of `block_string` is injective in the `previous_hash`
slot once the other four fields are fixed. -/
theorem block_string_previous_hash_injective (index : Nat) (merkle_root : String)
    (timestamp nonce : Nat) (p q : String)
    (h : block_string index p merkle_root timestamp nonce =
         block_string index q merkle_root timestamp nonce) : p = q := by
  unfold block_string at h
  have hd := congrArg String.data h
  simp only [String.data_append, List.append_assoc] at hd
  exact String.ext (List.append_cancel_right (List.append_cancel_left hd))

/-- Replacing `previous_hash` of the block at position `k` of a passing
validation walk trips the hash-integrity check at that position — the walk
recomputes the hash over the mutated `previous_hash`, which (for a
collision-free digest) no longer matches the stored hash, and that check comes
before the linkage check. -/
theorem validate_from_tamper_previous_hash (digest : String → String)
    (hinj : Function.Injective digest) (p' : String) :
    ∀ (l : List Block) (k j : Nat) (prev b : Block),
      validate_from digest prev j l = ValidationResult.valid →
      l[k]? = some b → p' ≠ b.previous_hash →
      validate_from digest prev j
          (list_modify (fun x => { x with previous_hash := p' }) k l) =
        ValidationResult.invalid (j + k) "hash mismatch" := by
  intro l
  induction l with
  | nil =>
    intro k j prev b _ hb
    simp at hb
  | cons c rest ih =>
    intro k j prev b hval hb hne
    obtain ⟨h1, h2, h3⟩ := (validate_from_cons_valid digest prev j c rest).mp hval
    cases k with
    | zero =>
      have hbc : c = b := by simpa using hb
      subst hbc
      show validate_from digest prev j ({ c with previous_hash := p' } :: rest) = _
      have hchanged : ({ c with previous_hash := p' } : Block).hash ≠
          Block.calculate_hash digest { c with previous_hash := p' } := by
        intro hEq
        have key : digest (block_string c.index c.previous_hash c.merkle_root
                c.timestamp c.nonce) =
            digest (block_string c.index p' c.merkle_root c.timestamp c.nonce) :=
          h1.symm.trans hEq
        exact hne (block_string_previous_hash_injective c.index c.merkle_root
          c.timestamp c.nonce c.previous_hash p' (hinj key)).symm
      simp only [validate_from, if_pos hchanged]
      simp
    | succ k =>
      show validate_from digest prev j (c :: list_modify _ k rest) = _
      simp only [validate_from]
      rw [if_neg (not_not_intro h1), if_neg (not_not_intro h2),
        ih k (j + 1) c b h3 (by simpa using hb) hne,
        show j + 1 + k = j + (k + 1) from by omega]

/-- Lemma: `getLast?` of a cons in terms of `getLastD`. -/
theorem cons_getLast?_eq (a : α) (l : List α) : (a :: l).getLast? = some (l.getLastD a) := by
  simp [List.getLast?_cons, List.getLastD_eq_getLast?]

/-- A passing validation walk stays passing when a sealed block linking to the
walk's last block is appended. -/
theorem validate_from_append (digest : String → String) (m : Block)
    (hm1 : m.hash = Block.calculate_hash digest m) :
    ∀ (l : List Block) (prev : Block) (j : Nat),
      validate_from digest prev j l = ValidationResult.valid →
      m.previous_hash = (l.getLastD prev).hash →
      validate_from digest prev j (l ++ [m]) = ValidationResult.valid := by
  intro l
  induction l with
  | nil =>
    intro prev j _ hlink
    show validate_from digest prev j [m] = ValidationResult.valid
    have hlink' : m.previous_hash = prev.hash := hlink
    simp only [validate_from]
    rw [if_neg (not_not_intro hm1), if_neg (not_not_intro hlink')]
  | cons c rest ih =>
    intro prev j hval hlink
    obtain ⟨h1, h2, h3⟩ := (validate_from_cons_valid digest prev j c rest).mp hval
    show validate_from digest prev j (c :: (rest ++ [m])) = ValidationResult.valid
    apply (validate_from_cons_valid digest prev j c (rest ++ [m])).mpr
    refine ⟨h1, h2, ih c (j + 1) h3 ?_⟩
    rwa [show (c :: rest).getLastD prev = rest.getLastD c from
      List.getLastD_cons prev c rest] at hlink

/-- The boolean `is_chain_valid` is true exactly when the report is valid. -/
theorem is_chain_valid_of_report_valid (digest : String → String) (bc : Blockchain)
    (h : bc.is_chain_valid_report digest = ValidationResult.valid) :
    bc.is_chain_valid digest = true := by
  unfold Blockchain.is_chain_valid
  rw [h]

/-- A true `is_chain_valid` has a valid report. -/
theorem report_valid_of_is_chain_valid (digest : String → String) (bc : Blockchain)
    (h : bc.is_chain_valid digest = true) :
    bc.is_chain_valid_report digest = ValidationResult.valid := by
  unfold Blockchain.is_chain_valid at h
  cases hrep : bc.is_chain_valid_report digest with
  | valid => rfl
  | invalid n s => rw [hrep] at h; cases h

/-- The report on a chain with a known head is the walk over the tail. -/
theorem is_chain_valid_report_cons (digest : String → String) (bc : Blockchain)
    (g : Block) (rest : List Block) (hc : bc.chain = g :: rest) :
    bc.is_chain_valid_report digest = validate_from digest g 1 rest := by
  unfold Blockchain.is_chain_valid_report
  rw [hc]

/-- A block built by `Block.new` is sealed: its stored hash is the
recomputation over its own header fields. -/
theorem block_new_sealed (digest : String → String) (index : Nat) (previous_hash : String)
    (transactions : List Transaction) (timestamp nonce : Nat) (b : Block)
    (h : Block.new digest index previous_hash transactions timestamp nonce = some b) :
    b.hash = Block.calculate_hash digest b := by
  unfold Block.new at h
  cases hm : MerkleTree.root digest transactions with
  | none => rw [hm] at h; cases h
  | some root =>
    rw [hm] at h
    cases h
    rfl

/-! ## Claims -/

/-- Claim C1.  The specification asserts that mutating a non-genesis block's
transaction list after admission makes `is_chain_valid()` return false with a
"hash mismatch" at that block's index.  The code does the opposite: the final
`Block.calculate_hash` hashes the stored `merkle_root`, which is computed once
at construction and never re-derived from `transactions`, so the mutation is
invisible — the validation report of any chain is unchanged by reassigning any
block's transaction list, and on the concrete tampering scenario of the
repository's own `test_is_chain_valid` the chain still validates. -/
theorem c1_transaction_tamper_is_invisible :
    (∀ (digest : String → String) (bc : Blockchain) (i : Nat) (txs : List Transaction),
        Blockchain.is_chain_valid_report digest (tamper_transactions bc i txs) =
          Blockchain.is_chain_valid_report digest bc)
    ∧ Blockchain.is_chain_valid idDigest
        (tamper_transactions chainA 1 [⟨"Alice", "Mallory", 100⟩]) = true := by
  constructor
  · intro digest bc i txs
    unfold Blockchain.is_chain_valid_report tamper_transactions
    cases hc : bc.chain with
    | nil => cases i <;> rfl
    | cons g rest =>
      cases i with
      | zero =>
        show validate_from digest { g with transactions := txs } 1 rest = _
        exact validate_from_congr_prev digest { g with transactions := txs } g rfl 1 rest
      | succ i =>
        show validate_from digest g 1 (list_modify _ i rest) = _
        exact validate_from_tamper_transactions digest txs rest i 1 g
  · decide

/-- Claim C2.  For the final `Block` class, `calculate_hash` depends only on
`index`, `previous_hash`, `merkle_root`, `timestamp` and `nonce`: blocks
agreeing on these five fields hash identically, whatever their transaction
lists and stored hashes, and reassigning `transactions` after construction
leaves `calculate_hash` unchanged. -/
theorem c2_calculate_hash_header_only (digest : String → String) (b b' : Block)
    (h1 : b.index = b'.index) (h2 : b.previous_hash = b'.previous_hash)
    (h3 : b.merkle_root = b'.merkle_root) (h4 : b.timestamp = b'.timestamp)
    (h5 : b.nonce = b'.nonce) :
    Block.calculate_hash digest b = Block.calculate_hash digest b'
    ∧ ∀ txs : List Transaction,
        Block.calculate_hash digest { b with transactions := txs } =
          Block.calculate_hash digest b := by
  refine ⟨?_, fun txs => rfl⟩
  simp only [Block.calculate_hash, block_string, h1, h2, h3, h4, h5]

/-- Witness for C2: two concrete blocks that agree on the five header fields
but differ in transactions and stored hash produce the same digest, and a
concrete reassignment of transactions leaves `calculate_hash` unchanged. -/
theorem c2_calculate_hash_header_only_witness :
    (Block.mk 0 "p" [] 3 4 "m" "h1").index = (Block.mk 0 "p" [⟨"a", "b", 1⟩] 3 4 "m" "h2").index
    ∧ (Block.mk 0 "p" [] 3 4 "m" "h1").previous_hash =
        (Block.mk 0 "p" [⟨"a", "b", 1⟩] 3 4 "m" "h2").previous_hash
    ∧ (Block.mk 0 "p" [] 3 4 "m" "h1").merkle_root =
        (Block.mk 0 "p" [⟨"a", "b", 1⟩] 3 4 "m" "h2").merkle_root
    ∧ (Block.mk 0 "p" [] 3 4 "m" "h1").timestamp =
        (Block.mk 0 "p" [⟨"a", "b", 1⟩] 3 4 "m" "h2").timestamp
    ∧ (Block.mk 0 "p" [] 3 4 "m" "h1").nonce =
        (Block.mk 0 "p" [⟨"a", "b", 1⟩] 3 4 "m" "h2").nonce
    ∧ (Block.calculate_hash idDigest (Block.mk 0 "p" [] 3 4 "m" "h1") =
          Block.calculate_hash idDigest (Block.mk 0 "p" [⟨"a", "b", 1⟩] 3 4 "m" "h2")
        ∧ ∀ txs : List Transaction,
            Block.calculate_hash idDigest
                { Block.mk 0 "p" [] 3 4 "m" "h1" with transactions := txs } =
              Block.calculate_hash idDigest (Block.mk 0 "p" [] 3 4 "m" "h1")) :=
  ⟨rfl, rfl, rfl, rfl, rfl,
    c2_calculate_hash_header_only idDigest _ _ rfl rfl rfl rfl rfl⟩

/-- Counterexample to claim C3's injectivity clause: the concatenation in
`calculate_hash` uses no field separators, so the distinct field tuples
(index 1, previous_hash "2") and (index 12, previous_hash "") produce the same
concatenation string "12m00". -/
theorem c3_concatenation_not_injective :
    block_string 1 "2" "m" 0 0 = block_string 12 "" "m" 0 0
    ∧ ((1 : Nat), "2") ≠ ((12 : Nat), "") := by
  exact ⟨by decide, by decide⟩

/-- Claim C3, amended.  The block hash stored at construction is the digest of
the concatenation of index, previous_hash, merkle_root, timestamp and nonce —
but that concatenation carries no separators and is not injective (see the
counterexample), so the "unambiguous" clause of the claim fails. -/
theorem c3_hash_is_digest_of_concatenation (digest : String → String) (index : Nat)
    (previous_hash : String) (transactions : List Transaction) (timestamp nonce : Nat)
    (b : Block)
    (h : Block.new digest index previous_hash transactions timestamp nonce = some b) :
    b.hash = digest (block_string index previous_hash b.merkle_root timestamp nonce) := by
  unfold Block.new at h
  cases hm : MerkleTree.root digest transactions with
  | none => rw [hm] at h; cases h
  | some root =>
    rw [hm] at h
    cases h
    rfl

/-- Witness for the amended C3 on a concretely constructed block. -/
theorem c3_hash_is_digest_of_concatenation_witness :
    Block.new idDigest 1 "p" [⟨"Alice", "Bob", 10⟩] 5 0 =
      some (Block.mk 1 "p" [⟨"Alice", "Bob", 10⟩] 5 0
        "Transaction(Alice -> Bob: 10)" "1pTransaction(Alice -> Bob: 10)50")
    ∧ (Block.mk 1 "p" [⟨"Alice", "Bob", 10⟩] 5 0
          "Transaction(Alice -> Bob: 10)" "1pTransaction(Alice -> Bob: 10)50").hash =
        idDigest (block_string 1 "p"
          (Block.mk 1 "p" [⟨"Alice", "Bob", 10⟩] 5 0
            "Transaction(Alice -> Bob: 10)" "1pTransaction(Alice -> Bob: 10)50").merkle_root
          5 0) :=
  ⟨by decide,
    c3_hash_is_digest_of_concatenation idDigest 1 "p" [⟨"Alice", "Bob", 10⟩] 5 0
      (Block.mk 1 "p" [⟨"Alice", "Bob", 10⟩] 5 0
        "Transaction(Alice -> Bob: 10)" "1pTransaction(Alice -> Bob: 10)50")
      (by decide)⟩

/-- Claim C5.  The Merkle reduction of `build_tree`: a single-element layer is
its own root; on a layer of two or more elements the last element is
duplicated when the length is odd, adjacent elements are then paired left to
right with each pair (a, b) replaced by digest(a ++ b), and the reduction
repeats on the resulting layer.  The closed two-, three- and four-leaf shapes
make the pairing order and the odd-duplication explicit. -/
theorem c5_merkle_reduction (digest : String → String) :
    (∀ x : String, build_tree digest [x] = some x)
    ∧ (∀ l : List String, 2 ≤ l.length →
        build_tree digest l =
          build_tree digest
            (pair_hash digest (if l.length % 2 = 1 then duplicate_last l else l)))
    ∧ (∀ a b : String, build_tree digest [a, b] = some (digest (a ++ b)))
    ∧ (∀ a b c : String,
        build_tree digest [a, b, c] =
          some (digest (digest (a ++ b) ++ digest (c ++ c))))
    ∧ (∀ a b c d : String,
        build_tree digest [a, b, c, d] =
          some (digest (digest (a ++ b) ++ digest (c ++ d)))) := by
  refine ⟨fun _ => rfl, build_tree_step digest, ?_, ?_, ?_⟩
  · intro a b
    simp [build_tree, build_tree_aux, pair_hash, hash_data, duplicate_last]
  · intro a b c
    simp [build_tree, build_tree_aux, pair_hash, hash_data, duplicate_last]
  · intro a b c d
    simp [build_tree, build_tree_aux, pair_hash, hash_data, duplicate_last]

/-- Witness for C5 at concrete layers, including an odd-length step. -/
theorem c5_merkle_reduction_witness :
    build_tree idDigest ["a"] = some "a"
    ∧ 2 ≤ (["a", "b", "c"] : List String).length
    ∧ build_tree idDigest ["a", "b", "c"] =
        build_tree idDigest
          (pair_hash idDigest
            (if (["a", "b", "c"] : List String).length % 2 = 1
             then duplicate_last ["a", "b", "c"] else ["a", "b", "c"]))
    ∧ build_tree idDigest ["a", "b", "c"] =
        some (idDigest (idDigest ("a" ++ "b") ++ idDigest ("c" ++ "c"))) :=
  ⟨(c5_merkle_reduction idDigest).1 "a", by decide,
    (c5_merkle_reduction idDigest).2.1 ["a", "b", "c"] (by decide),
    (c5_merkle_reduction idDigest).2.2.2.1 "a" "b" "c"⟩

/-- Claim C7.  The specification asserts that constructing a `Blockchain`
succeeds with a valid one-block genesis chain; in the code the genesis
constructor passes the empty transaction list to the final `Block`, whose
Merkle computation has no base case for an empty layer and never produces a
result (in Python, unbounded recursion), so the construction has no defined
result at all — for every digest, difficulty and timestamp. -/
theorem c7_genesis_construction_has_no_result :
    ∀ (digest : String → String) (difficulty now : Nat),
      create_genesis_block digest now = none
      ∧ Blockchain.init digest difficulty now = none := by
  intro digest difficulty now
  exact ⟨rfl, rfl⟩

/-- Claim C8.  When `mine_block` terminates, the first `difficulty` characters
of the stored hash are all '0' (the hash prefix equals the all-zero target, so
the hash is at least that long); the loop touches no field other than nonce
and hash, bumps the nonce by one per iteration, and each iteration stores the
recomputed hash — so after any positive number of iterations the stored hash
is the recomputation over the block's own header fields, and zero iterations
return the block unchanged. -/
theorem c8_mine_block_postcondition (digest : String → String) (fuel difficulty : Nat)
    (b b' : Block) (h : Block.mine_block digest fuel difficulty b = some b') :
    b'.hash.take difficulty = target difficulty
    ∧ b'.index = b.index
    ∧ b'.previous_hash = b.previous_hash
    ∧ b'.transactions = b.transactions
    ∧ b'.timestamp = b.timestamp
    ∧ b'.merkle_root = b.merkle_root
    ∧ ∃ k : Nat, b'.nonce = b.nonce + k
        ∧ (k = 0 → b' = b)
        ∧ (0 < k → b'.hash = Block.calculate_hash digest b') :=
  mine_block_spec digest fuel difficulty b b' h

/-- Witness for C8: a concrete block mined in one iteration at difficulty 1
under `idDigest`. -/
theorem c8_mine_block_postcondition_witness :
    Block.mine_block idDigest 1 1 (Block.mk 0 "p" [] 0 0 "m" "X") =
      some (Block.mk 0 "p" [] 0 1 "m" "0pm01")
    ∧ ((Block.mk 0 "p" [] 0 1 "m" "0pm01").hash.take 1 = target 1
       ∧ (Block.mk 0 "p" [] 0 1 "m" "0pm01").index = (Block.mk 0 "p" [] 0 0 "m" "X").index
       ∧ (Block.mk 0 "p" [] 0 1 "m" "0pm01").previous_hash =
           (Block.mk 0 "p" [] 0 0 "m" "X").previous_hash
       ∧ (Block.mk 0 "p" [] 0 1 "m" "0pm01").transactions =
           (Block.mk 0 "p" [] 0 0 "m" "X").transactions
       ∧ (Block.mk 0 "p" [] 0 1 "m" "0pm01").timestamp =
           (Block.mk 0 "p" [] 0 0 "m" "X").timestamp
       ∧ (Block.mk 0 "p" [] 0 1 "m" "0pm01").merkle_root =
           (Block.mk 0 "p" [] 0 0 "m" "X").merkle_root
       ∧ ∃ k : Nat, (Block.mk 0 "p" [] 0 1 "m" "0pm01").nonce =
             (Block.mk 0 "p" [] 0 0 "m" "X").nonce + k
           ∧ (k = 0 → Block.mk 0 "p" [] 0 1 "m" "0pm01" = Block.mk 0 "p" [] 0 0 "m" "X")
           ∧ (0 < k → (Block.mk 0 "p" [] 0 1 "m" "0pm01").hash =
               Block.calculate_hash idDigest (Block.mk 0 "p" [] 0 1 "m" "0pm01"))) :=
  ⟨by decide, c8_mine_block_postcondition idDigest 1 1 _ _ (by decide)⟩

/-- Claim C9.  A block's stored hash is recoverable from its other header
fields at both checkpoints the specification names: immediately after
construction through `Block.new`, and immediately after a mining run on such
a block completes. -/
theorem c9_stored_hash_recoverable (digest : String → String) (fuel difficulty index : Nat)
    (previous_hash : String) (transactions : List Transaction) (timestamp nonce : Nat)
    (b b' : Block)
    (hc : Block.new digest index previous_hash transactions timestamp nonce = some b)
    (hm : Block.mine_block digest fuel difficulty b = some b') :
    b.hash = Block.calculate_hash digest b ∧ b'.hash = Block.calculate_hash digest b' := by
  have hb := block_new_sealed digest index previous_hash transactions timestamp nonce b hc
  exact ⟨hb, mine_block_sealed digest fuel difficulty b b' hb hm⟩

/-- Witness for C9 on a concretely constructed and mined block. -/
theorem c9_stored_hash_recoverable_witness :
    Block.new idDigest 1 "p" [⟨"Alice", "Bob", 10⟩] 5 0 =
      some (Block.mk 1 "p" [⟨"Alice", "Bob", 10⟩] 5 0
        "Transaction(Alice -> Bob: 10)" "1pTransaction(Alice -> Bob: 10)50")
    ∧ Block.mine_block idDigest 0 0
        (Block.mk 1 "p" [⟨"Alice", "Bob", 10⟩] 5 0
          "Transaction(Alice -> Bob: 10)" "1pTransaction(Alice -> Bob: 10)50") =
      some (Block.mk 1 "p" [⟨"Alice", "Bob", 10⟩] 5 0
        "Transaction(Alice -> Bob: 10)" "1pTransaction(Alice -> Bob: 10)50")
    ∧ ((Block.mk 1 "p" [⟨"Alice", "Bob", 10⟩] 5 0
          "Transaction(Alice -> Bob: 10)" "1pTransaction(Alice -> Bob: 10)50").hash =
        Block.calculate_hash idDigest
          (Block.mk 1 "p" [⟨"Alice", "Bob", 10⟩] 5 0
            "Transaction(Alice -> Bob: 10)" "1pTransaction(Alice -> Bob: 10)50")
       ∧ (Block.mk 1 "p" [⟨"Alice", "Bob", 10⟩] 5 0
            "Transaction(Alice -> Bob: 10)" "1pTransaction(Alice -> Bob: 10)50").hash =
          Block.calculate_hash idDigest
            (Block.mk 1 "p" [⟨"Alice", "Bob", 10⟩] 5 0
              "Transaction(Alice -> Bob: 10)" "1pTransaction(Alice -> Bob: 10)50")) :=
  ⟨by decide, by decide,
    c9_stored_hash_recoverable idDigest 0 0 1 "p" [⟨"Alice", "Bob", 10⟩] 5 0 _ _
      (by decide) (by decide)⟩

/-- Claim C10.  On every non-empty list of leaf digests the Merkle reduction
terminates with a single digest; the empty list (on which the source recursion
never reaches a base case) yields no result. -/
theorem c10_build_tree_terminates (digest : String → String) (leaves : List String)
    (h : leaves ≠ []) : (build_tree digest leaves).isSome = true :=
  build_tree_aux_some digest leaves.length leaves le_rfl h

/-- Witness for C10 on a concrete three-leaf layer. -/
theorem c10_build_tree_terminates_witness :
    (["a", "b", "c"] : List String) ≠ []
    ∧ (build_tree idDigest ["a", "b", "c"]).isSome = true :=
  ⟨by decide, c10_build_tree_terminates idDigest ["a", "b", "c"] (by decide)⟩

/-- Counterexample to claim C4's reported reason: on a concretely valid
two-block chain, replacing `previous_hash` of block 1 makes `is_chain_valid`
false at index 1, but the printed reason is "hash mismatch", not the claimed
"previous hash mismatch" — the hash-integrity check recomputes the hash over
the mutated `previous_hash` and fires first. -/
theorem c4_counterexample_reason_is_hash_mismatch :
    Blockchain.is_chain_valid idDigest chainA = true
    ∧ "XX" ≠ blockA1.previous_hash
    ∧ Blockchain.is_chain_valid idDigest (tamper_previous_hash chainA 1 "XX") = false
    ∧ Blockchain.is_chain_valid_report idDigest (tamper_previous_hash chainA 1 "XX") =
        ValidationResult.invalid 1 "hash mismatch"
    ∧ ("hash mismatch" : String) ≠ "previous hash mismatch" := by
  exact ⟨by decide, by decide, by decide, by decide, by decide⟩

/-- Claim C4, amended.  For every valid chain, every index `i ≥ 1` and every
collision-free digest, replacing `previous_hash` of block `i` with a different
value (leaving block `i - 1` untouched) makes `is_chain_valid()` return false
at index `i` — but the reported reason is "hash mismatch", not
"previous hash mismatch": `calculate_hash` covers `previous_hash`, so the
hash-integrity check (which runs before the linkage check) already fails. -/
theorem c4_previous_hash_tamper_reported (digest : String → String)
    (hinj : Function.Injective digest) (bc : Blockchain) (i : Nat) (b : Block) (p' : String)
    (h1 : 1 ≤ i) (hb : bc.chain[i]? = some b)
    (hval : Blockchain.is_chain_valid digest bc = true)
    (hne : p' ≠ b.previous_hash) :
    Blockchain.is_chain_valid_report digest (tamper_previous_hash bc i p') =
      ValidationResult.invalid i "hash mismatch" := by
  obtain ⟨k, rfl⟩ : ∃ k, i = k + 1 := ⟨i - 1, by omega⟩
  cases hc : bc.chain with
  | nil => rw [hc] at hb; simp at hb
  | cons g rest =>
    rw [hc] at hb
    have hb' : rest[k]? = some b := by simpa using hb
    have hrep := report_valid_of_is_chain_valid digest bc hval
    rw [is_chain_valid_report_cons digest bc g rest hc] at hrep
    unfold Blockchain.is_chain_valid_report tamper_previous_hash
    rw [hc]
    show validate_from digest g 1 (list_modify (fun x => { x with previous_hash := p' }) k rest) =
      ValidationResult.invalid (k + 1) "hash mismatch"
    rw [validate_from_tamper_previous_hash digest hinj p' rest k 1 g b hrep hb' hne,
      show 1 + k = k + 1 from by omega]

/-- Witness for the amended C4 on the concrete chain of the counterexample. -/
theorem c4_previous_hash_tamper_reported_witness :
    Function.Injective idDigest
    ∧ 1 ≤ 1
    ∧ chainA.chain[1]? = some blockA1
    ∧ Blockchain.is_chain_valid idDigest chainA = true
    ∧ "XX" ≠ blockA1.previous_hash
    ∧ Blockchain.is_chain_valid_report idDigest (tamper_previous_hash chainA 1 "XX") =
        ValidationResult.invalid 1 "hash mismatch" :=
  ⟨by intro a b h; exact h, by decide, by decide, by decide, by decide,
    c4_previous_hash_tamper_reported idDigest (by intro a b h; exact h) chainA 1 blockA1 "XX"
      (by decide) (by decide) (by decide) (by decide)⟩

/-- Counterexample to claim C6: `add_block` never writes the new block's
`index`, and when the stale stored hash already meets the target (difficulty 0
here) the mining loop runs zero iterations and keeps that stale hash.  On this
concrete run `add_block` succeeds, yet the chain is invalid afterwards and the
new tip's index is the caller-chosen 7, not the old tip's index 0 plus 1. -/
theorem c6_counterexample_add_block :
    Blockchain.add_block idDigest 5 chainB blockX = some chainBbad
    ∧ Blockchain.is_chain_valid idDigest chainBbad = false
    ∧ Option.map Block.index (Blockchain.get_latest_block chainB) = some 0
    ∧ Option.map Block.index (Blockchain.get_latest_block chainBbad) = some 7
    ∧ (7 : Nat) ≠ 0 + 1 := by
  exact ⟨by decide, by decide, by decide, by decide, by decide⟩

/-- Claim C6, amended.  If the chain is non-empty and valid and
`add_block(new_block)` succeeds with the mining loop actually running (the
stale pre-mining hash does not already meet the difficulty target), then
afterwards the chain is valid and the new tip's `previous_hash` is the old
tip's hash; the new tip's index is `new_block.index` — `add_block` never sets
it, so it equals the old tip's index plus 1 only when the caller supplies it
that way. -/
theorem c6_add_block_success (digest : String → String) (fuel : Nat)
    (bc bc' : Blockchain) (nb tip : Block)
    (htip : bc.get_latest_block = some tip)
    (hval : Blockchain.is_chain_valid digest bc = true)
    (hstale : ¬ nb.hash.take bc.difficulty = target bc.difficulty)
    (h : Blockchain.add_block digest fuel bc nb = some bc') :
    ∃ m : Block,
      bc'.get_latest_block = some m
      ∧ m.previous_hash = tip.hash
      ∧ m.index = nb.index
      ∧ Blockchain.is_chain_valid digest bc' = true := by
  unfold Blockchain.add_block at h
  rw [htip] at h
  dsimp only at h
  cases hm : Block.mine_block digest fuel bc.difficulty
      { nb with previous_hash := tip.hash } with
  | none => rw [hm] at h; cases h
  | some m =>
    rw [hm] at h
    dsimp only at h
    injection h with h
    subst h
    obtain ⟨ht, hi, hp, -, -, -, k, hk, hk0, hkpos⟩ :=
      mine_block_spec digest fuel bc.difficulty _ m hm
    have hmph : m.previous_hash = tip.hash := hp
    have hmidx : m.index = nb.index := hi
    have hsealed : m.hash = Block.calculate_hash digest m := by
      rcases Nat.eq_zero_or_pos k with rfl | hpos
      · exfalso
        apply hstale
        have hm0 := hk0 rfl
        rw [hm0] at ht
        exact ht
      · exact hkpos hpos
    cases hc : bc.chain with
    | nil =>
      unfold Blockchain.get_latest_block at htip
      rw [hc] at htip
      simp at htip
    | cons g rest =>
      refine ⟨m, ?_, hmph, hmidx, ?_⟩
      · show ((g :: rest) ++ [m]).getLast? = some m
        exact List.getLast?_concat _
      · have hrep := report_valid_of_is_chain_valid digest bc hval
        rw [is_chain_valid_report_cons digest bc g rest hc] at hrep
        unfold Blockchain.get_latest_block at htip
        rw [hc, cons_getLast?_eq] at htip
        have hlink : m.previous_hash = (rest.getLastD g).hash := by
          rw [hmph]
          exact (congrArg Block.hash (Option.some.inj htip)).symm
        apply is_chain_valid_of_report_valid
        rw [is_chain_valid_report_cons digest _ g (rest ++ [m]) rfl]
        exact validate_from_append digest m hsealed rest g 1 hrep hlink

/-- Witness for the amended C6: a concrete admission at difficulty 1 under
`idDigest` that runs one real mining iteration. -/
theorem c6_add_block_success_witness :
    Blockchain.get_latest_block chainB1 = some blockA0
    ∧ Blockchain.is_chain_valid idDigest chainB1 = true
    ∧ ¬ blockY.hash.take chainB1.difficulty = target chainB1.difficulty
    ∧ Blockchain.add_block idDigest 3 chainB1 blockY = some chainB1good
    ∧ ∃ m : Block,
        Blockchain.get_latest_block chainB1good = some m
        ∧ m.previous_hash = blockA0.hash
        ∧ m.index = blockY.index
        ∧ Blockchain.is_chain_valid idDigest chainB1good = true :=
  ⟨by decide, by decide, by decide, by decide,
    c6_add_block_success idDigest 3 chainB1 chainB1good blockY blockA0
      (by decide) (by decide) (by decide) (by decide)⟩

end BlockchainSpec
